import Mathlib

/-!
Verification development for the ConchPad terminal editor (src/src/main.c).

The editor state and its operations are embedded shallowly: the global
`struct editorConfig E` becomes an explicit `EState` record threaded
through every operation, a row's `chars` array becomes a `List Char`
(the `render` array is always recomputed from `chars` in the source, so
it is represented by the pure function `editorUpdateRow`), and C `int`
fields that the source keeps non-negative are modelled as `Nat`.
File descriptors and terminal reads are modelled by passing the bytes
(for the key decoder) or the I/O outcomes (for saving) as explicit
arguments.  The recursive `editorDelChar` is given explicit fuel because
the source function can genuinely fail to terminate (mutual merge of two
empty rows); `none` models that divergence or fuel exhaustion.
-/

/-- Tab stop width, from the ConchPad_TAB_STOP define. -/
def ConchPad_TAB_STOP : Nat := 8

/-- Number of confirmations for quitting dirty, from the ConchPad_QUIT_TIMES define. -/
def ConchPad_QUIT_TIMES : Nat := 2

/-- Key code for backspace, from enum editorKey. -/
def BACKSPACE : Nat := 127

/-- Key code for arrow left, from enum editorKey. -/
def ARROW_LEFT : Nat := 1000

/-- Key code for arrow right, from enum editorKey. -/
def ARROW_RIGHT : Nat := 2000

/-- Key code for arrow up, from enum editorKey. -/
def ARROW_UP : Nat := 3000

/-- Key code for arrow down, from enum editorKey. -/
def ARROW_DOWN : Nat := 4000

/-- Key code for page up, from enum editorKey. -/
def PAGE_UP : Nat := 4001

/-- Key code for page down, from enum editorKey. -/
def PAGE_DOWN : Nat := 4002

/-- Key code for the home key, from enum editorKey. -/
def HOME_KEY : Nat := 4003

/-- Key code for the end key, from enum editorKey. -/
def END_KEY : Nat := 4004

/-- Key code for the delete key, from enum editorKey. -/
def DEL_KEY : Nat := 4005

/-- CTRL_KEY macro: bitwise AND of the character value with 0x1f. -/
def CTRL_KEY (k : Nat) : Nat := k &&& 0x1f

/-- The editor state, from struct editorConfig.  A row is its `chars`
content (`render`/`rsize` are recomputed from `chars` by
`editorUpdateRow` whenever read, exactly as the source recomputes them
on every mutation).  The render-only fields `rx` and `coloff` and the
status-message buffer are not carried; the status-message side effects
are reflected in the outcome types of the operations that produce them. -/
structure EState where
  cx : Nat
  cy : Nat
  rowoff : Nat
  screenrows : Nat
  screencols : Nat
  rows : List (List Char)
  dirty : Nat
  filename : Option (List Char)
  deriving DecidableEq, Repr

/-- editorRowCxToRx: map a raw column to a render column, expanding tabs.
The source accumulates rx += (TAB_STOP - 1) - rx % TAB_STOP followed by
rx++, i.e. rx becomes rx + TAB_STOP - rx % TAB_STOP at a tab. -/
def editorRowCxToRx (chars : List Char) (cx : Nat) : Nat :=
  (chars.take cx).foldl
    (fun rx c =>
      if c = '\t' then rx + (ConchPad_TAB_STOP - rx % ConchPad_TAB_STOP)
      else rx + 1)
    0

/-- editorUpdateRow: compute the render form of a row, expanding each tab
to one space followed by spaces up to the next multiple of the tab stop. -/
def editorUpdateRow (chars : List Char) : List Char :=
  chars.foldl
    (fun acc c =>
      if c = '\t' then
        let acc1 := acc ++ [' ']
        acc1 ++ List.replicate
          ((ConchPad_TAB_STOP - acc1.length % ConchPad_TAB_STOP) % ConchPad_TAB_STOP) ' '
      else acc ++ [c])
    []

/-- editorInsertRow: insert a row at index i, shifting later rows; no-op
when i is out of range (the source also rejects at < 0, impossible for Nat);
increments the dirty counter on success. -/
def editorInsertRow (st : EState) (i : Nat) (s : List Char) : EState :=
  if i > st.rows.length then st
  else { st with rows := st.rows.take i ++ s :: st.rows.drop i, dirty := st.dirty + 1 }

/-- editorDelRow: delete the row at index i; no-op when out of range;
increments the dirty counter on success. -/
def editorDelRow (st : EState) (i : Nat) : EState :=
  if i ≥ st.rows.length then st
  else { st with rows := st.rows.take i ++ st.rows.drop (i + 1), dirty := st.dirty + 1 }

/-- editorRowInsertChar: insert byte c at column i of row r, clamping i to
the row length when out of range; increments the dirty counter. -/
def editorRowInsertChar (st : EState) (r : Nat) (i : Nat) (c : Char) : EState :=
  let row := st.rows.getD r []
  let j := if i > row.length then row.length else i
  { st with rows := st.rows.set r (row.take j ++ c :: row.drop j), dirty := st.dirty + 1 }

/-- editorRowAppendString: append bytes to the end of row r; increments
the dirty counter. -/
def editorRowAppendString (st : EState) (r : Nat) (s : List Char) : EState :=
  { st with rows := st.rows.set r (st.rows.getD r [] ++ s), dirty := st.dirty + 1 }

/-- editorRowDelChar: delete the byte at column i of row r; no-op when i
is out of range; increments the dirty counter on success. -/
def editorRowDelChar (st : EState) (r : Nat) (i : Nat) : EState :=
  let row := st.rows.getD r []
  if i ≥ row.length then st
  else { st with rows := st.rows.set r (row.take i ++ row.drop (i + 1)), dirty := st.dirty + 1 }

/-- editorDelChar: backspace at the cursor.  At column 0 of a later row the
source assigns cx from the previous row, appends the current row onto the
previous one, then calls editorDelChar recursively (the call is written
editorDelChar(E.cy); the parameter is dropped by the empty-parameter
prototype) and finally decrements cy.  The recursion is modelled with
fuel; `none` is running out of fuel (the source can recurse forever on
two empty rows). -/
def editorDelChar : Nat → EState → Option EState
  | 0, _ => none
  | fuel + 1, st =>
    if st.cy = st.rows.length then some st
    else if st.cx = 0 ∧ st.cy = 0 then some st
    else
      let row := st.rows.getD st.cy []
      if st.cx > 0 then
        some { editorRowDelChar st st.cy (st.cx - 1) with cx := st.cx - 1 }
      else
        let st1 := { st with cx := (st.rows.getD (st.cy - 1) []).length }
        let st2 := editorRowAppendString st1 (st1.cy - 1) row
        match editorDelChar fuel st2 with
        | none => none
        | some st3 => some { st3 with cy := st3.cy - 1 }

/-- editorInsertChar: when the cursor is on the virtual row past the end,
first append an empty row; then insert the byte at the cursor column and
advance cx. -/
def editorInsertChar (st : EState) (c : Char) : EState :=
  let st1 := if st.cy = st.rows.length then editorInsertRow st st.rows.length [] else st
  let st2 := editorRowInsertChar st1 st1.cy st1.cx c
  { st2 with cx := st2.cx + 1 }

/-- editorInsertNewLine: at column 0 insert an empty row before the current
one; otherwise move the suffix from the cursor on into a new row below and
truncate the current row at the cursor; then move to the start of the next
row. -/
def editorInsertNewLine (st : EState) : EState :=
  let st1 :=
    if st.cx = 0 then editorInsertRow st st.cy []
    else
      let row := st.rows.getD st.cy []
      let st2 := editorInsertRow st (st.cy + 1) (row.drop st.cx)
      { st2 with rows := st2.rows.set st.cy (row.take st.cx) }
  { st1 with cy := st1.cy + 1, cx := 0 }

/-- editorRowsToString: serialize the buffer, each row followed by exactly
one newline byte. -/
def editorRowsToString (rows : List (List Char)) : List Char :=
  (rows.map (fun r => r ++ ['\n'])).flatten

/-- splitAux: getline-style decomposition of the file bytes into lines,
each line including its terminating newline byte; a final fragment
without a newline is returned as a last line. -/
def splitAux : List Char → List Char → List (List Char)
  | [], acc => if acc.isEmpty then [] else [acc.reverse]
  | c :: cs, acc =>
    if c = '\n' then (acc.reverse ++ ['\n']) :: splitAux cs []
    else splitAux cs (c :: acc)

/-- stripCRLF: the trailing-byte loop of editorOpen, removing every
trailing newline or carriage-return byte from a line. -/
def stripCRLF : List Char → List Char
  | [] => []
  | c :: cs =>
    let r := stripCRLF cs
    if r.isEmpty then (if c = '\n' ∨ c = '\r' then [] else [c]) else c :: r

/-- editorOpenRows: rows produced by the editorOpen read loop, one
insertion at the end of the buffer per getline line, each stripped of
trailing newline and carriage-return bytes. -/
def editorOpenRows (content : List Char) : List (List Char) :=
  (splitAux content []).map stripCRLF

/-- editorOpen: record the file name, append one row per line of the file
content, and clear the dirty counter. -/
def editorOpen (st : EState) (filename : List Char) (content : List Char) : EState :=
  { st with
    filename := some filename,
    rows := st.rows ++ editorOpenRows content,
    dirty := 0 }

/-- editorSave inner write path: open with O_CREAT, ftruncate to the
payload length, then write it; only when all three succeed is the dirty
counter cleared; on any failure the state is left unchanged and an error
status is shown.  The three I/O outcomes are passed in explicitly. -/
def editorSaveWrite (st : EState) (openOk truncOk writeOk : Bool) : EState :=
  if openOk then
    if truncOk then
      if writeOk then { st with dirty := 0 }
      else st
    else st
  else st

/-- editorSave: when no filename is set, take the save-as prompt result
(cancelled prompt aborts the save, leaving the state unchanged);
otherwise run the write path with the given I/O outcomes. -/
def editorSave (st : EState) (promptRes : Option (List Char))
    (openOk truncOk writeOk : Bool) : EState :=
  match st.filename with
  | none =>
    match promptRes with
    | none => st
    | some name => editorSaveWrite { st with filename := some name } openOk truncOk writeOk
  | some _ => editorSaveWrite st openOk truncOk writeOk

/-- editorReadKey: decode one key from the available input bytes.  The
list models the bytes that read() can deliver before timing out; an
exhausted list at the first read blocks forever in the source, modelled
as `none`; an exhausted list mid-sequence makes the corresponding read()
return 0 and the decoder degrades to the bare escape byte 27. -/
def editorReadKey (bytes : List Char) : Option Nat :=
  match bytes with
  | [] => none
  | input :: rest =>
    if input = '\x1b' then
      match rest with
      | [] => some 27
      | s0 :: rest1 =>
        match rest1 with
        | [] => some 27
        | s1 :: rest2 =>
          if s0 = '[' then
            if '0' ≤ s1 ∧ s1 ≤ '9' then
              match rest2 with
              | [] => some 27
              | s2 :: _ =>
                if s2 = '~' then
                  if s1 = '1' then some HOME_KEY
                  else if s1 = '3' then some DEL_KEY
                  else if s1 = '4' then some END_KEY
                  else if s1 = '5' then some PAGE_UP
                  else if s1 = '6' then some PAGE_DOWN
                  else if s1 = '7' then some HOME_KEY
                  else if s1 = '8' then some END_KEY
                  else some 27
                else some 27
            else
              if s1 = 'A' then some ARROW_UP
              else if s1 = 'B' then some ARROW_DOWN
              else if s1 = 'C' then some ARROW_RIGHT
              else if s1 = 'D' then some ARROW_LEFT
              else if s1 = 'H' then some HOME_KEY
              else if s1 = 'F' then some END_KEY
              else some 27
          else if s0 = '0' then
            if s1 = 'H' then some HOME_KEY
            else if s1 = 'F' then some END_KEY
            else some 27
          else some 27
    else some input.toNat

/-- iscntrl over the int key values the prompt receives: the control
range 0..31 and 127. -/
def isCntrl (c : Nat) : Bool := c < 32 || c == 127

/-- Outcome of one iteration of the editorPrompt loop. -/
inductive PromptOut where
  | cont (buf : List Char)
  | commit (buf : List Char)
  | cancel
  deriving DecidableEq, Repr

/-- editorPrompt, one loop iteration: the branch for delete, ctrl-h and
backspace has an empty body in the source; escape cancels; enter commits
only a non-empty input; any other printable byte below 128 is appended. -/
def editorPromptStep (buf : List Char) (c : Nat) : PromptOut :=
  if c = DEL_KEY ∨ c = CTRL_KEY 104 ∨ c = BACKSPACE then PromptOut.cont buf
  else if c = 27 then PromptOut.cancel
  else if c = 13 then
    if buf.isEmpty then PromptOut.cont buf else PromptOut.commit buf
  else if !isCntrl c && c < 128 then PromptOut.cont (buf ++ [Char.ofNat c])
  else PromptOut.cont buf

/-- editorCursorMove: one arrow-key move followed by the final clamp of
cx to the length of the row the cursor landed on (0 on the virtual end
row). -/
def editorCursorMove (st : EState) (key : Nat) : EState :=
  let st1 :=
    if key = ARROW_LEFT then
      if st.cx ≠ 0 then { st with cx := st.cx - 1 }
      else if st.cy > 0 then
        { st with cy := st.cy - 1, cx := (st.rows.getD (st.cy - 1) []).length }
      else st
    else if key = ARROW_RIGHT then
      if st.cy < st.rows.length then
        let row := st.rows.getD st.cy []
        if st.cx < row.length then { st with cx := st.cx + 1 }
        else if st.cx = row.length then { st with cy := st.cy + 1, cx := 0 }
        else st
      else st
    else if key = ARROW_UP then
      if st.cy ≠ 0 then { st with cy := st.cy - 1 } else st
    else if key = ARROW_DOWN then
      if st.cy ≠ st.rows.length then { st with cy := st.cy + 1 } else st
    else st
  let rowlen := if st1.cy < st1.rows.length then (st1.rows.getD st1.cy []).length else 0
  if st1.cx > rowlen then { st1 with cx := rowlen } else st1

/-- Outcome of editorProcessKeypress: either the process exits (the quit
key; `warned` records whether the unsaved-changes warning message was
set just before exiting) or the loop continues with a new state and the
new value of the static quite_times counter. -/
inductive ProcOut where
  | quit (warned : Bool)
  | cont (st : EState) (qt : Nat)
  deriving DecidableEq, Repr

/-- editorProcessKeypress: dispatch one decoded key.  qt is the static
quite_times counter on entry.  The source sets the warning message when
the buffer is dirty and qt > 0 but then unconditionally clears the
screen and calls exit(0); on every non-exiting branch the trailing
statement resets quite_times to ConchPad_QUIT_TIMES.  The page-up and
page-down case has no break and falls through into the arrow cases,
running editorCursorMove on the page key (which only applies the final
clamp).  The delete branch inherits editorDelChar's fuel.  The save
branch takes the prompt result and I/O outcomes as explicit arguments.
In the page-down branch the source computes rowoff + screenrows - 1 as a
C int; the Nat model truncates at 0, which differs only when
rowoff = 0 and screenrows = 0. -/
def editorProcessKeypress (fuel : Nat) (st : EState) (qt : Nat) (key : Nat)
    (promptRes : Option (List Char)) (openOk truncOk writeOk : Bool) : Option ProcOut :=
  if key = 13 then
    some (ProcOut.cont (editorInsertNewLine st) ConchPad_QUIT_TIMES)
  else if key = CTRL_KEY 113 then
    some (ProcOut.quit ((st.dirty != 0) && (qt != 0)))
  else if key = CTRL_KEY 115 then
    some (ProcOut.cont (editorSave st promptRes openOk truncOk writeOk) ConchPad_QUIT_TIMES)
  else if key = HOME_KEY then
    some (ProcOut.cont { st with cx := 0 } ConchPad_QUIT_TIMES)
  else if key = END_KEY then
    some (ProcOut.cont
      (if st.cy < st.rows.length then { st with cx := st.screencols - 1 } else st)
      ConchPad_QUIT_TIMES)
  else if key = BACKSPACE ∨ key = CTRL_KEY 104 ∨ key = DEL_KEY then
    let st1 := if key = DEL_KEY then editorCursorMove st ARROW_RIGHT else st
    match editorDelChar fuel st1 with
    | none => none
    | some st2 => some (ProcOut.cont st2 ConchPad_QUIT_TIMES)
  else if key = PAGE_UP ∨ key = PAGE_DOWN then
    let st1 :=
      if key = PAGE_UP then { st with cy := st.rowoff }
      else
        let cy1 := st.rowoff + st.screenrows - 1
        { st with cy := if cy1 > st.rows.length then st.rows.length else cy1 }
    let st2 :=
      (fun s => editorCursorMove s (if key = PAGE_UP then ARROW_UP else ARROW_DOWN))^[st1.screenrows] st1
    some (ProcOut.cont (editorCursorMove st2 key) ConchPad_QUIT_TIMES)
  else if key = ARROW_UP ∨ key = ARROW_DOWN ∨ key = ARROW_RIGHT ∨ key = ARROW_LEFT then
    some (ProcOut.cont (editorCursorMove st key) ConchPad_QUIT_TIMES)
  else if key = CTRL_KEY 108 ∨ key = 27 then
    some (ProcOut.cont st ConchPad_QUIT_TIMES)
  else
    some (ProcOut.cont (editorInsertChar st (Char.ofNat key)) ConchPad_QUIT_TIMES)

/-- A line of text that the load path stores verbatim: it contains no
newline byte and does not end in a carriage return (so the trailing
strip of editorOpen removes exactly the line ending). -/
def goodLine (l : List Char) : Prop := '\n' ∉ l ∧ l.getLast? ≠ some '\r'

/-- A line ending the round-trip claim covers: a bare newline or a
carriage return followed by a newline. -/
def goodEnding (e : List Char) : Prop := e = ['\n'] ∨ e = ['\r', '\n']

/-- File content assembled from terminated lines followed by an optional
unterminated final fragment. -/
def mkFileContent (ps : List (List Char × List Char)) (tl : List Char) : List Char :=
  (ps.map (fun p => p.1 ++ p.2)).flatten ++ tl

instance goodLine.instDecidable (l : List Char) : Decidable (goodLine l) :=
  inferInstanceAs (Decidable ('\n' ∉ l ∧ l.getLast? ≠ some '\r'))

instance goodEnding.instDecidable (e : List Char) : Decidable (goodEnding e) :=
  inferInstanceAs (Decidable (e = ['\n'] ∨ e = ['\r', '\n']))

/-- Concrete state for exercising the quit path: a dirty one-row buffer. -/
def stC1 : EState :=
  { cx := 0, cy := 0, rowoff := 0, screenrows := 24, screencols := 80,
    rows := [['a']], dirty := 1, filename := none }

/-- Concrete state for the split/merge experiment: one row "ab" with the
cursor at column 1. -/
def stC2 : EState :=
  { cx := 1, cy := 0, rowoff := 0, screenrows := 24, screencols := 80,
    rows := [['a', 'b']], dirty := 0, filename := none }

/-- Concrete state for the cursor-clamp experiment: one row "a" with the
cursor at the end of the last row. -/
def stC5 : EState :=
  { cx := 1, cy := 0, rowoff := 0, screenrows := 24, screencols := 80,
    rows := [['a']], dirty := 0, filename := none }

/-- Concrete state for the end-key experiment: one row "ab", cursor at
the origin, 80-column screen. -/
def stC6 : EState :=
  { cx := 0, cy := 0, rowoff := 0, screenrows := 24, screencols := 80,
    rows := [['a', 'b']], dirty := 0, filename := none }

/-- Concrete state for the virtual-row insertion witness: one row "x"
with the cursor on the virtual row past the end. -/
def stC10 : EState :=
  { cx := 0, cy := 1, rowoff := 0, screenrows := 24, screencols := 80,
    rows := [['x']], dirty := 0, filename := none }

/-- C1: the claim says a dirty buffer must see the quit key ConchPad_QUIT_TIMES
more consecutive times before the program terminates.  Evaluating the
keypress handler on a dirty buffer with the counter at its initial value
shows a single quit key already terminates the process: the handler sets
the warning message and then unconditionally exits (the source never
decrements quite_times and never returns early on the dirty branch). -/
theorem c1_quit_exits_immediately_when_dirty :
    editorProcessKeypress 9 stC1 ConchPad_QUIT_TIMES (CTRL_KEY 113) none true true true =
      some (ProcOut.quit true) := by decide

/-- C2: the claim says split at column k then backspace at column 0 of the
second row restores the single original row.  Evaluating on row "ab",
k = 1: the merge branch appends the suffix back onto the first row but
then calls editorDelChar recursively instead of editorDelRow, so the
suffix row is never removed and a character of it is deleted instead;
the buffer ends with two rows and the cursor at column 0, not 1. -/
theorem c2_split_then_merge_leaves_extra_row :
    editorDelChar 9 (editorInsertNewLine stC2) =
      some { stC2 with rows := [['a', 'b'], []], cx := 0, cy := 0, dirty := 3 } ∧
    (editorDelChar 9 (editorInsertNewLine stC2)).map (fun s => s.rows.length) = some 2 := by
  decide

/-- C6: the claim says the end key sets cx to the current row length.
Evaluating the keypress handler on a row of length 2 with an 80-column
screen shows the source sets cx to screencols - 1 = 79 instead. -/
theorem c6_end_key_sets_cx_to_screencols_minus_one :
    editorProcessKeypress 9 stC6 ConchPad_QUIT_TIMES END_KEY none true true true =
      some (ProcOut.cont { stC6 with cx := 79 } ConchPad_QUIT_TIMES) ∧
    (stC6.rows.getD stC6.cy []).length = 2 := by decide

/-- C7: the claim says backspace or delete removes the last character of a
non-empty prompt input.  Evaluating one prompt iteration shows the
backspace, ctrl-h and delete keys leave the input unchanged (the branch
body is empty in the source), while the enter and escape parts of the
claim do hold. -/
theorem c7_prompt_backspace_is_noop :
    editorPromptStep ['a'] BACKSPACE = PromptOut.cont ['a'] ∧
    editorPromptStep ['a'] DEL_KEY = PromptOut.cont ['a'] ∧
    editorPromptStep ['a'] (CTRL_KEY 104) = PromptOut.cont ['a'] ∧
    editorPromptStep ['a'] 13 = PromptOut.commit ['a'] ∧
    editorPromptStep [] 13 = PromptOut.cont [] ∧
    editorPromptStep ['a'] 27 = PromptOut.cancel := by decide

/-- C9: a row holding a single tab renders to exactly one tab stop of
spaces, and the raw-to-render column map sends column 1 to the tab stop. -/
theorem c9_tab_render_and_cx_to_rx :
    (editorUpdateRow ['\t']).length = ConchPad_TAB_STOP ∧
    editorRowCxToRx ['\t'] 1 = ConchPad_TAB_STOP := by decide

/-- Setting the element just past a list, i.e. at the index of an appended
singleton, replaces that singleton. -/
theorem set_append_singleton {α : Type _} (l : List α) (a b : α) :
    (l ++ [a]).set l.length b = l ++ [b] := by
  induction l with
  | nil => rfl
  | cons x xs ih => simp [ih]

/-- Reading the element just past a list, i.e. at the index of an appended
singleton, yields that singleton. -/
theorem getD_append_length {α : Type _} (l : List α) (a d : α) :
    (l ++ [a]).getD l.length d = a := by
  induction l with
  | nil => rfl
  | cons x xs ih => simp [ih]

/-- C4: a freshly loaded buffer has dirty counter zero; inserting a
character strictly increases the dirty counter (by one inside an
existing row, and by two when the virtual end row is materialised
first); a save in which open, truncate and the full write succeed
resets it to zero (whether the filename was already set or was just
supplied by the prompt); a save failing at open, truncate or write, or
aborted at the prompt, leaves the dirty counter unchanged. -/
theorem c4_dirty_lifecycle :
    (∀ (st : EState) name content, (editorOpen st name content).dirty = 0) ∧
    (∀ (st : EState) c, st.dirty < (editorInsertChar st c).dirty) ∧
    (∀ (st : EState) f pr,
      (editorSave { st with filename := some f } pr true true true).dirty = 0) ∧
    (∀ (st : EState) name,
      (editorSave { st with filename := none } (some name) true true true).dirty = 0) ∧
    (∀ (st : EState) pr tOk wOk, (editorSave st pr false tOk wOk).dirty = st.dirty) ∧
    (∀ (st : EState) pr oOk wOk, (editorSave st pr oOk false wOk).dirty = st.dirty) ∧
    (∀ (st : EState) pr oOk tOk, (editorSave st pr oOk tOk false).dirty = st.dirty) ∧
    (∀ (st : EState) oOk tOk wOk,
      (editorSave { st with filename := none } none oOk tOk wOk).dirty = st.dirty) := by
  refine ⟨fun st name content => rfl, ?_, ?_, ?_, ?_, ?_, ?_, ?_⟩
  · intro st c
    unfold editorInsertChar editorRowInsertChar editorInsertRow
    by_cases h : st.cy = st.rows.length <;> simp [h] <;> omega
  · intro st f pr
    simp [editorSave, editorSaveWrite]
  · intro st name
    simp [editorSave, editorSaveWrite]
  · intro st pr tOk wOk
    cases h : st.filename <;> cases pr <;> simp [editorSave, editorSaveWrite, h]
  · intro st pr oOk wOk
    cases h : st.filename <;> cases pr <;> cases oOk <;>
      simp [editorSave, editorSaveWrite, h]
  · intro st pr oOk tOk
    cases h : st.filename <;> cases pr <;> cases oOk <;> cases tOk <;>
      simp [editorSave, editorSaveWrite, h]
  · intro st oOk tOk wOk
    simp [editorSave]

/-- C10: when the cursor sits on the virtual row past end-of-file,
inserting a character appends one new row holding exactly that
character, increases the row count by exactly one, and advances cx by
one. -/
theorem c10_insert_on_virtual_row (st : EState) (c : Char) (h : st.cy = st.rows.length) :
    (editorInsertChar st c).rows = st.rows ++ [[c]] ∧
    (editorInsertChar st c).rows.length = st.rows.length + 1 ∧
    (editorInsertChar st c).cx = st.cx + 1 := by
  unfold editorInsertChar editorRowInsertChar editorInsertRow
  simp [h, set_append_singleton, getD_append_length]

/-- C10 witness: concrete virtual-row insertion on the one-row buffer. -/
theorem c10_insert_on_virtual_row_witness :
    (editorInsertChar stC10 'q').rows = stC10.rows ++ [['q']] ∧
    (editorInsertChar stC10 'q').rows.length = stC10.rows.length + 1 ∧
    (editorInsertChar stC10 'q').cx = stC10.cx + 1 :=
  c10_insert_on_virtual_row stC10 'q' (by decide)

/-- Unfolding of editorCursorMove at the arrow-down key. -/
theorem editorCursorMove_down_eq (st : EState) :
    editorCursorMove st ARROW_DOWN =
      (let st1 := if st.cy ≠ st.rows.length then { st with cy := st.cy + 1 } else st
       let rowlen :=
         if st1.cy < st1.rows.length then (st1.rows.getD st1.cy []).length else 0
       if st1.cx > rowlen then { st1 with cx := rowlen } else st1) := rfl

/-- Unfolding of editorCursorMove at the arrow-right key. -/
theorem editorCursorMove_right_eq (st : EState) :
    editorCursorMove st ARROW_RIGHT =
      (let st1 :=
         if st.cy < st.rows.length then
           let row := st.rows.getD st.cy []
           if st.cx < row.length then { st with cx := st.cx + 1 }
           else if st.cx = row.length then { st with cy := st.cy + 1, cx := 0 }
           else st
         else st
       let rowlen :=
         if st1.cy < st1.rows.length then (st1.rows.getD st1.cy []).length else 0
       if st1.cx > rowlen then { st1 with cx := rowlen } else st1) := rfl

/-- Cursor movement never changes the buffer rows. -/
theorem editorCursorMove_rows (st : EState) (k : Nat) :
    (editorCursorMove st k).rows = st.rows := by
  unfold editorCursorMove
  dsimp only
  repeat' split
  all_goals rfl

/-- One arrow-down step keeps cy within the row count. -/
theorem editorCursorMove_down_cy_le (st : EState) (h : st.cy ≤ st.rows.length) :
    (editorCursorMove st ARROW_DOWN).cy ≤ st.rows.length := by
  rw [editorCursorMove_down_eq]
  dsimp only
  by_cases hcy : st.cy = st.rows.length
  · rw [if_neg (not_not_intro hcy)]
    repeat' split
    all_goals exact h
  · rw [if_pos hcy]
    repeat' split
    all_goals (dsimp only; omega)

/-- C5 counterexample: with one row "a" and the cursor at its end, the
claim says moving right changes neither cx nor cy; the source instead
advances onto the virtual end-of-file row. -/
theorem c5_counterexample_right_at_end_moves :
    ¬ ((editorCursorMove stC5 ARROW_RIGHT).cx = stC5.cx ∧
       (editorCursorMove stC5 ARROW_RIGHT).cy = stC5.cy) := by decide

/-- C5 (amended): repeated arrow-down moves keep cy at most the row count
(the virtual end-of-file row) and never beyond; moving right at the end
of the last row is not a no-op but advances the cursor to the start of
the virtual end-of-file row (cy becomes the row count and cx becomes 0);
moving right on the virtual end-of-file row itself only clamps cx to 0. -/
theorem c5_cursor_clamp_amended :
    (∀ (st : EState) n, st.cy ≤ st.rows.length →
      ((fun s => editorCursorMove s ARROW_DOWN)^[n] st).cy ≤ st.rows.length) ∧
    (∀ (st : EState) row, st.rows.getLast? = some row → st.cy + 1 = st.rows.length →
      st.cx = row.length →
      (editorCursorMove st ARROW_RIGHT).cy = st.rows.length ∧
      (editorCursorMove st ARROW_RIGHT).cx = 0) ∧
    (∀ (st : EState), st.cy = st.rows.length →
      editorCursorMove st ARROW_RIGHT = { st with cx := 0 }) := by
  refine ⟨?_, ?_, ?_⟩
  · intro st n
    induction n generalizing st with
    | zero => intro h; simpa using h
    | succ n ih =>
      intro h
      rw [Function.iterate_succ_apply]
      have h1 : (editorCursorMove st ARROW_DOWN).cy ≤ (editorCursorMove st ARROW_DOWN).rows.length := by
        rw [editorCursorMove_rows]
        exact editorCursorMove_down_cy_le st h
      have h2 := ih (editorCursorMove st ARROW_DOWN) h1
      rwa [editorCursorMove_rows] at h2
  · intro st row hr hcy hcx
    have hlt : st.cy < st.rows.length := by omega
    have hgd : st.rows.getD st.cy [] = row := by
      rw [List.getLast?_eq_getElem?] at hr
      have hix : st.rows.length - 1 = st.cy := by omega
      rw [hix] at hr
      rw [List.getD_eq_getElem?_getD, hr]
      rfl
    rw [editorCursorMove_right_eq]
    dsimp only
    rw [if_pos hlt, hgd, hcx]
    rw [if_neg (lt_irrefl row.length), if_pos rfl]
    dsimp only
    rw [if_neg (Nat.not_lt_zero _)]
    dsimp only
    omega
  · intro st h
    rw [editorCursorMove_right_eq]
    dsimp only
    rw [if_neg (by omega : ¬ st.cy < st.rows.length)]
    rw [if_neg (by omega : ¬ st.cy < st.rows.length)]
    by_cases hcx : st.cx = 0
    · rw [if_neg (by omega : ¬ st.cx > 0)]
      cases st
      simp only [EState.mk.injEq]
      simp_all
    · rw [if_pos (by omega : st.cx > 0)]

/-- C5 witness: the amended statement evaluated on concrete buffers. -/
theorem c5_cursor_clamp_amended_witness :
    (((fun s => editorCursorMove s ARROW_DOWN)^[3] stC5).cy ≤ stC5.rows.length) ∧
    ((editorCursorMove stC5 ARROW_RIGHT).cy = stC5.rows.length ∧
     (editorCursorMove stC5 ARROW_RIGHT).cx = 0) ∧
    (editorCursorMove stC10 ARROW_RIGHT = { stC10 with cx := 0 }) :=
  ⟨c5_cursor_clamp_amended.1 stC5 3 (by decide),
   c5_cursor_clamp_amended.2.1 stC5 ['a'] (by decide) (by decide) (by decide),
   c5_cursor_clamp_amended.2.2 stC10 (by decide)⟩

/-- C8: the decoder maps ESC [ A/B/C/D to the arrows, ESC [ H and ESC [ F
to home and end, ESC [ digit ~ per digit (1,7 home; 3 delete; 4,8 end;
5 page-up; 6 page-down); when a read times out after the escape byte, or
the sequence is not one the decoder recognises, it yields the bare
escape key 27.  (The decoder additionally recognises ESC 0 H and
ESC 0 F as home and end; the unrecognised-sequence clauses below
therefore exclude a second byte of 0x5B or 0x30.) -/
theorem c8_escape_sequence_decoding :
    (∀ rest, editorReadKey ('\x1b' :: '[' :: 'A' :: rest) = some ARROW_UP) ∧
    (∀ rest, editorReadKey ('\x1b' :: '[' :: 'B' :: rest) = some ARROW_DOWN) ∧
    (∀ rest, editorReadKey ('\x1b' :: '[' :: 'C' :: rest) = some ARROW_RIGHT) ∧
    (∀ rest, editorReadKey ('\x1b' :: '[' :: 'D' :: rest) = some ARROW_LEFT) ∧
    (∀ rest, editorReadKey ('\x1b' :: '[' :: 'H' :: rest) = some HOME_KEY) ∧
    (∀ rest, editorReadKey ('\x1b' :: '[' :: 'F' :: rest) = some END_KEY) ∧
    (∀ rest, editorReadKey ('\x1b' :: '[' :: '1' :: '~' :: rest) = some HOME_KEY) ∧
    (∀ rest, editorReadKey ('\x1b' :: '[' :: '3' :: '~' :: rest) = some DEL_KEY) ∧
    (∀ rest, editorReadKey ('\x1b' :: '[' :: '4' :: '~' :: rest) = some END_KEY) ∧
    (∀ rest, editorReadKey ('\x1b' :: '[' :: '5' :: '~' :: rest) = some PAGE_UP) ∧
    (∀ rest, editorReadKey ('\x1b' :: '[' :: '6' :: '~' :: rest) = some PAGE_DOWN) ∧
    (∀ rest, editorReadKey ('\x1b' :: '[' :: '7' :: '~' :: rest) = some HOME_KEY) ∧
    (∀ rest, editorReadKey ('\x1b' :: '[' :: '8' :: '~' :: rest) = some END_KEY) ∧
    (editorReadKey ['\x1b'] = some 27) ∧
    (∀ b, editorReadKey ['\x1b', b] = some 27) ∧
    (∀ s1 rest, ¬('0' ≤ s1 ∧ s1 ≤ '9') → s1 ≠ 'A' → s1 ≠ 'B' → s1 ≠ 'C' → s1 ≠ 'D' →
      s1 ≠ 'H' → s1 ≠ 'F' → editorReadKey ('\x1b' :: '[' :: s1 :: rest) = some 27) ∧
    (∀ d, '0' ≤ d → d ≤ '9' → editorReadKey ['\x1b', '[', d] = some 27) ∧
    (∀ d s2 rest, '0' ≤ d → d ≤ '9' → s2 ≠ '~' →
      editorReadKey ('\x1b' :: '[' :: d :: s2 :: rest) = some 27) ∧
    (∀ rest, editorReadKey ('\x1b' :: '[' :: '0' :: '~' :: rest) = some 27) ∧
    (∀ rest, editorReadKey ('\x1b' :: '[' :: '2' :: '~' :: rest) = some 27) ∧
    (∀ rest, editorReadKey ('\x1b' :: '[' :: '9' :: '~' :: rest) = some 27) ∧
    (∀ s0 s1 rest, s0 ≠ '[' → s0 ≠ '0' →
      editorReadKey ('\x1b' :: s0 :: s1 :: rest) = some 27) ∧
    (∀ s1 rest, s1 ≠ 'H' → s1 ≠ 'F' →
      editorReadKey ('\x1b' :: '0' :: s1 :: rest) = some 27) := by
  refine ⟨fun rest => rfl, fun rest => rfl, fun rest => rfl, fun rest => rfl,
    fun rest => rfl, fun rest => rfl, fun rest => rfl, fun rest => rfl,
    fun rest => rfl, fun rest => rfl, fun rest => rfl, fun rest => rfl,
    fun rest => rfl, rfl, fun b => rfl, ?_, ?_, ?_,
    fun rest => rfl, fun rest => rfl, fun rest => rfl, ?_, ?_⟩
  · intro s1 rest h0 hA hB hC hD hH hF
    simp [editorReadKey, h0, hA, hB, hC, hD, hH, hF]
  · intro d h0 h9
    simp [editorReadKey, h0, h9]
  · intro d s2 rest h0 h9 hs2
    simp [editorReadKey, h0, h9, hs2]
  · intro s0 s1 rest h1 h2
    simp [editorReadKey, h1, h2]
  · intro s1 rest h1 h2
    simp [editorReadKey, h1, h2]

/-- C8 witness: the unrecognised-sequence and truncated-sequence clauses
evaluated at concrete byte sequences. -/
theorem c8_escape_sequence_decoding_witness :
    editorReadKey ['\x1b', '[', 'Z', 'x'] = some 27 ∧
    editorReadKey ['\x1b', '[', '2'] = some 27 ∧
    editorReadKey ['\x1b', '[', '5', 'x'] = some 27 ∧
    editorReadKey ['\x1b', 'q', 'w'] = some 27 ∧
    editorReadKey ['\x1b', '0', 'Q'] = some 27 := by
  obtain ⟨-, -, -, -, -, -, -, -, -, -, -, -, -, -, -, h16, h17, h18, -, -, -, h22, h23⟩ :=
    c8_escape_sequence_decoding
  exact ⟨h16 'Z' ['x'] (by decide) (by decide) (by decide) (by decide) (by decide)
          (by decide) (by decide),
        h17 '2' (by decide) (by decide),
        h18 '5' 'x' [] (by decide) (by decide) (by decide),
        h22 'q' 'w' [] (by decide) (by decide),
        h23 'Q' [] (by decide) (by decide)⟩

/-- A getline chunk without a newline byte is returned whole as a single
line (with any pending accumulator prefix). -/
theorem splitAux_no_newline (l : List Char) :
    ∀ acc, '\n' ∉ l → acc.reverse ++ l ≠ [] → splitAux l acc = [acc.reverse ++ l] := by
  induction l with
  | nil =>
    intro acc _ hne
    have hacc : acc ≠ [] := by
      intro h0
      exact hne (by simp [h0])
    simp [splitAux, List.isEmpty_iff, hacc]
  | cons c cs ih =>
    intro acc h hne
    rw [List.mem_cons] at h
    push_neg at h
    obtain ⟨hc, hcs⟩ := h
    simp only [splitAux]
    rw [if_neg (fun hh => hc hh.symm)]
    rw [ih (c :: acc) hcs (by simp)]
    simp

/-- Splitting a chunk that ends in the first newline byte peels off that
line and continues on the remainder with an empty accumulator. -/
theorem splitAux_append_newline (l : List Char) :
    ∀ acc rest, '\n' ∉ l →
      splitAux (l ++ '\n' :: rest) acc =
        ((acc.reverse ++ l) ++ ['\n']) :: splitAux rest [] := by
  induction l with
  | nil =>
    intro acc rest _
    simp [splitAux]
  | cons c cs ih =>
    intro acc rest h
    rw [List.mem_cons] at h
    push_neg at h
    obtain ⟨hc, hcs⟩ := h
    simp only [List.cons_append, splitAux, List.append_eq]
    rw [if_neg (fun hh => hc hh.symm)]
    rw [ih (c :: acc) rest hcs]
    simp

/-- One-step unfolding of the trailing strip on a cons cell. -/
theorem stripCRLF_cons (c : Char) (cs : List Char) :
    stripCRLF (c :: cs) =
      if (stripCRLF cs).isEmpty then (if c = '\n' ∨ c = '\r' then [] else [c])
      else c :: stripCRLF cs := rfl

/-- The trailing strip erases a string made only of newline and
carriage-return bytes. -/
theorem stripCRLF_all_crlf (e : List Char) (he : ∀ c ∈ e, c = '\n' ∨ c = '\r') :
    stripCRLF e = [] := by
  induction e with
  | nil => rfl
  | cons c cs ih =>
    have h1 := he c (List.mem_cons_self c cs)
    have h2 : stripCRLF cs = [] := ih fun x hx => he x (List.mem_cons_of_mem c hx)
    simp [stripCRLF, h2, h1]

/-- The trailing strip removes exactly the line-ending bytes from a line
that itself contains no newline and does not end in a carriage return. -/
theorem stripCRLF_append_crlf (l : List Char) :
    ∀ e, '\n' ∉ l → l.getLast? ≠ some '\r' → (∀ c ∈ e, c = '\n' ∨ c = '\r') →
      stripCRLF (l ++ e) = l := by
  induction l with
  | nil =>
    intro e _ _ he
    simpa using stripCRLF_all_crlf e he
  | cons c cs ih =>
    intro e h hr he
    rw [List.mem_cons] at h
    push_neg at h
    obtain ⟨hc, hcs⟩ := h
    cases cs with
    | nil =>
      have hc2 : c ≠ '\r' := by
        intro hq
        exact hr (by simp [hq])
      have h0 : stripCRLF e = [] := stripCRLF_all_crlf e he
      have hcnd : ¬(c = '\n' ∨ c = '\r') := by
        push_neg
        exact ⟨fun hh => hc hh.symm, hc2⟩
      rw [List.singleton_append, stripCRLF_cons, h0]
      simp [hcnd]
    | cons d ds =>
      have hgl : (d :: ds).getLast? ≠ some '\r' := by
        rw [List.getLast?_cons_cons] at hr
        exact hr
      have ih2 := ih e hcs hgl he
      rw [List.cons_append, stripCRLF_cons, ih2]
      simp

/-- Loading a file whose lines are well formed produces exactly the line
contents as rows, the optional unterminated fragment last. -/
theorem editorOpenRows_mkFileContent (ps : List (List Char × List Char)) (tl : List Char)
    (hps : ∀ p ∈ ps, goodLine p.1 ∧ goodEnding p.2) (htl : goodLine tl) :
    editorOpenRows (mkFileContent ps tl) =
      ps.map Prod.fst ++ (if tl.isEmpty then [] else [tl]) := by
  induction ps with
  | nil =>
    by_cases htl0 : tl = []
    · subst htl0
      simp [mkFileContent, editorOpenRows, splitAux]
    · have h1 : splitAux tl [] = [tl] := by
        have := splitAux_no_newline tl [] htl.1 (by simpa using htl0)
        simpa using this
      have h2 : stripCRLF tl = tl := by
        have := stripCRLF_append_crlf tl [] htl.1 htl.2 (by simp)
        simpa using this
      simp [mkFileContent, editorOpenRows, h1, h2, List.isEmpty_iff, htl0]
  | cons p ps ih =>
    obtain ⟨l, e⟩ := p
    have hl := (hps (l, e) (List.mem_cons_self _ _)).1
    have he := (hps (l, e) (List.mem_cons_self _ _)).2
    have hps2 : ∀ q ∈ ps, goodLine q.1 ∧ goodEnding q.2 :=
      fun q hq => hps q (List.mem_cons_of_mem _ hq)
    have hrec := ih hps2
    unfold editorOpenRows at hrec
    obtain ⟨hl1, hl2⟩ := hl
    have hcontent : mkFileContent ((l, e) :: ps) tl = l ++ (e ++ mkFileContent ps tl) := by
      simp [mkFileContent, List.append_assoc]
    cases he with
    | inl h1 =>
      subst h1
      rw [hcontent]
      have hsh : l ++ (['\n'] ++ mkFileContent ps tl) = l ++ '\n' :: mkFileContent ps tl := by
        simp
      rw [hsh]
      unfold editorOpenRows
      rw [splitAux_append_newline l [] (mkFileContent ps tl) hl1]
      simp only [List.reverse_nil, List.nil_append, List.map_cons]
      rw [stripCRLF_append_crlf l ['\n'] hl1 hl2 (by simp), hrec]
      simp
    | inr h2 =>
      subst h2
      rw [hcontent]
      have hsh : l ++ (['\r', '\n'] ++ mkFileContent ps tl) =
          (l ++ ['\r']) ++ '\n' :: mkFileContent ps tl := by
        simp
      rw [hsh]
      have hnl : '\n' ∉ l ++ ['\r'] := by
        rw [List.mem_append]
        push_neg
        exact ⟨hl1, by decide⟩
      unfold editorOpenRows
      rw [splitAux_append_newline (l ++ ['\r']) [] (mkFileContent ps tl) hnl]
      simp only [List.reverse_nil, List.nil_append, List.map_cons]
      have hstrip : stripCRLF ((l ++ ['\r']) ++ ['\n']) = l := by
        rw [List.append_assoc]
        exact stripCRLF_append_crlf l (['\r'] ++ ['\n']) hl1 hl2 (by decide)
      rw [hstrip, hrec]
      simp

/-- C3: for every file content made of lines terminated by a bare newline
or by carriage return + newline (each line content free of newline bytes
and not itself ending in a carriage return), optionally followed by an
unterminated final fragment, loading the file and immediately
serializing the buffer reproduces the content with every line ending
normalised to a single newline byte and exactly one trailing newline
after the last row. -/
theorem c3_load_serialize_round_trip (ps : List (List Char × List Char)) (tl : List Char)
    (hps : ∀ p ∈ ps, goodLine p.1 ∧ goodEnding p.2) (htl : goodLine tl) :
    editorRowsToString (editorOpenRows (mkFileContent ps tl)) =
      (ps.map (fun p => p.1 ++ ['\n'])).flatten ++
        (if tl.isEmpty then [] else tl ++ ['\n']) := by
  rw [editorOpenRows_mkFileContent ps tl hps htl]
  unfold editorRowsToString
  rw [List.map_append, List.flatten_append, List.map_map]
  congr 1
  split <;> simp

/-- C3 witness: the round trip evaluated on the concrete file content
"a", newline, "bc", carriage return, newline, then the unterminated
fragment "d". -/
theorem c3_load_serialize_round_trip_witness :
    editorRowsToString
        (editorOpenRows (mkFileContent [(['a'], ['\n']), (['b', 'c'], ['\r', '\n'])] ['d'])) =
      ([(['a'], ['\n']), (['b', 'c'], ['\r', '\n'])].map (fun p => p.1 ++ ['\n'])).flatten ++
        (if (['d'] : List Char).isEmpty then [] else ['d'] ++ ['\n']) :=
  c3_load_serialize_round_trip _ _ (by decide) (by decide)
